import Mathlib

/-!
Verification of the WaaV client SDK's WebSocket session layer and realtime
router.  Shallow embedding of `bud_foundry/ws/session.py` and
`bud_foundry/pipelines/realtime.py`: metric collection, event emitters,
reconnect backoff, connect-failure cleanup, the realtime state machine and
the Hume message routing.  Floating point sample values and backoff delays
are modelled with exact rationals; randomness (reservoir slot choice, jitter
draw) is modelled as an explicit input.
-/

namespace WaaV

/-! ## Metrics collector (`ws/session.py`, class `MetricsCollector`) -/

/-- `PercentileStats` dataclass: every field defaults to zero. -/
structure PercentileStats where
  p50 : ℚ := 0
  p95 : ℚ := 0
  p99 : ℚ := 0
  min : ℚ := 0
  max : ℚ := 0
  mean : ℚ := 0
  last : ℚ := 0
  count : ℕ := 0
deriving Repr, DecidableEq

/-- Python's `sorted()` on a list of numbers: sort ascending. -/
def pySorted (l : List ℚ) : List ℚ :=
  l.insertionSort (· ≤ ·)

/-- `int(q)` for the nonnegative `q = p * n` used below: `q.den` is positive,
so Euclidean division of the numerator by the denominator is the floor, which
for nonnegative `q` coincides with Python's truncation toward zero. -/
def pyInt (q : ℚ) : ℕ :=
  Int.toNat (q.num / (q.den : ℤ))

/-- `MetricsCollector._calculate_percentiles`: on an empty sample list
return the all-zero `PercentileStats()`; otherwise sort, and read
`sorted_samples[min(int(p*n), n-1)]` for each percentile, the first and
last sorted element for min/max (and for `last`), and `sum/n` for mean. -/
def calculatePercentiles (samples : List ℚ) : PercentileStats :=
  if samples = [] then {}
  else
    let ss := pySorted samples
    let n := ss.length
    let percentile : ℚ → ℚ := fun p => ss.getD (min (pyInt (p * n)) (n - 1)) 0
    { p50 := percentile (50 / 100)
      p95 := percentile (95 / 100)
      p99 := percentile (99 / 100)
      min := ss.headD 0
      max := ss.getLastD 0
      mean := ss.sum / n
      last := ss.getLastD 0
      count := n }

/-- `MetricsCollector._add_sample`: below capacity append, at capacity
overwrite the slot `idx` (the code draws `idx` uniformly from
`randint(0, len-1)`; the draw is an explicit input here). -/
def addSample (maxSamples : ℕ) (samples : List ℚ) (value : ℚ) (idx : ℕ) : List ℚ :=
  if samples.length < maxSamples then samples ++ [value]
  else samples.set idx value

/-- Iterated `_add_sample` over a list of (value, random slot) pairs. -/
def addSamples (maxSamples : ℕ) (samples : List ℚ) : List (ℚ × ℕ) → List ℚ
  | [] => samples
  | (v, i) :: rest => addSamples maxSamples (addSample maxSamples samples v i) rest

/-- `MetricsCollector` mutable state (`__init__` fields). -/
structure MetricsCollector where
  maxSamples : ℕ
  sttTtft : List ℚ
  ttsTtfb : List ℚ
  e2eLatency : List ℚ
  wsConnectMs : ℚ
  reconnectCount : ℕ
  messagesSent : ℕ
  messagesReceived : ℕ
  audioBytesSent : ℕ
  audioBytesReceived : ℕ
deriving Repr, DecidableEq

/-- `MetricsCollector(max_samples=1000)`: fresh collector. -/
def MetricsCollector.init (maxSamples : ℕ := 1000) : MetricsCollector :=
  ⟨maxSamples, [], [], [], 0, 0, 0, 0, 0, 0⟩

/-- `record_stt_ttft` (the reservoir slot draw is an explicit input). -/
def MetricsCollector.recordSttTtft (c : MetricsCollector) (ms : ℚ) (idx : ℕ) :
    MetricsCollector :=
  { c with sttTtft := addSample c.maxSamples c.sttTtft ms idx }

/-- `record_tts_ttfb`. -/
def MetricsCollector.recordTtsTtfb (c : MetricsCollector) (ms : ℚ) (idx : ℕ) :
    MetricsCollector :=
  { c with ttsTtfb := addSample c.maxSamples c.ttsTtfb ms idx }

/-- `record_e2e_latency`. -/
def MetricsCollector.recordE2eLatency (c : MetricsCollector) (ms : ℚ) (idx : ℕ) :
    MetricsCollector :=
  { c with e2eLatency := addSample c.maxSamples c.e2eLatency ms idx }

/-- `SessionMetrics` snapshot dataclass. -/
structure SessionMetrics where
  sttTtft : PercentileStats
  ttsTtfb : PercentileStats
  e2eLatency : PercentileStats
  wsConnectMs : ℚ
  reconnectCount : ℕ
  messagesSent : ℕ
  messagesReceived : ℕ
  audioBytesSent : ℕ
  audioBytesReceived : ℕ
deriving Repr, DecidableEq

/-- `MetricsCollector.get_metrics`. -/
def MetricsCollector.getMetrics (c : MetricsCollector) : SessionMetrics :=
  { sttTtft := calculatePercentiles c.sttTtft
    ttsTtfb := calculatePercentiles c.ttsTtfb
    e2eLatency := calculatePercentiles c.e2eLatency
    wsConnectMs := c.wsConnectMs
    reconnectCount := c.reconnectCount
    messagesSent := c.messagesSent
    messagesReceived := c.messagesReceived
    audioBytesSent := c.audioBytesSent
    audioBytesReceived := c.audioBytesReceived }

/-- `MetricsCollector.reset`: clear every sample list and counter
(`max_samples` is not touched). -/
def MetricsCollector.reset (c : MetricsCollector) : MetricsCollector :=
  { c with
    sttTtft := []
    ttsTtfb := []
    e2eLatency := []
    wsConnectMs := 0
    reconnectCount := 0
    messagesSent := 0
    messagesReceived := 0
    audioBytesSent := 0
    audioBytesReceived := 0 }

/-! ### Helper lemmas about sorted sample lists -/

lemma getLastD_mem : ∀ (l : List ℚ) (d : ℚ), l ≠ [] → l.getLastD d ∈ l
  | [], _, h => absurd rfl h
  | [_], _, _ => by simp
  | a :: b :: t, d, _ => by
      rw [List.getLastD_cons]
      exact List.mem_cons_of_mem a (getLastD_mem (b :: t) a (by simp))

lemma sorted_headD_le {l : List ℚ} (hs : l.Sorted (· ≤ ·)) :
    ∀ x ∈ l, l.headD 0 ≤ x := by
  cases l with
  | nil => intro x hx; cases hx
  | cons a t =>
      intro x hx
      rcases List.mem_cons.mp hx with rfl | hxt
      · simp
      · simpa using (List.sorted_cons.mp hs).1 x hxt

lemma sorted_le_getLastD :
    ∀ (l : List ℚ), l.Sorted (· ≤ ·) → ∀ x ∈ l, x ≤ l.getLastD 0
  | [], _, x, hx => by cases hx
  | a :: t, hs, x, hx => by
      cases t with
      | nil =>
          simp only [List.mem_singleton] at hx
          simp [hx]
      | cons b t2 =>
          rw [List.getLastD_cons]
          rcases List.mem_cons.mp hx with rfl | hxt
          · exact (List.sorted_cons.mp hs).1 _ (getLastD_mem (b :: t2) x (by simp))
          · have ih := sorted_le_getLastD (b :: t2) (List.sorted_cons.mp hs).2 x hxt
            rw [List.getLastD_cons] at ih ⊢
            exact ih

lemma headD_mem {l : List ℚ} (hl : l ≠ []) : l.headD 0 ∈ l := by
  cases l with
  | nil => exact absurd rfl hl
  | cons a t => simp

lemma pySorted_length (l : List ℚ) : (pySorted l).length = l.length :=
  (List.perm_insertionSort (· ≤ ·) l).length_eq

lemma pySorted_ne_nil {l : List ℚ} (hl : l ≠ []) : pySorted l ≠ [] := by
  intro h
  apply hl
  rw [← List.length_eq_zero, ← pySorted_length, h, List.length_nil]

lemma mem_pySorted {l : List ℚ} {x : ℚ} : x ∈ pySorted l ↔ x ∈ l :=
  List.mem_insertionSort (· ≤ ·)

lemma pySorted_sum (l : List ℚ) : (pySorted l).sum = l.sum :=
  (List.perm_insertionSort (· ≤ ·) l).sum_eq

lemma pySorted_sorted (l : List ℚ) : (pySorted l).Sorted (· ≤ ·) :=
  List.sorted_insertionSort (· ≤ ·) l

lemma calculatePercentiles_of_ne_nil {l : List ℚ} (hl : l ≠ []) :
    calculatePercentiles l =
      { p50 := (pySorted l).getD
          (min (pyInt (50 / 100 * (pySorted l).length)) ((pySorted l).length - 1)) 0
        p95 := (pySorted l).getD
          (min (pyInt (95 / 100 * (pySorted l).length)) ((pySorted l).length - 1)) 0
        p99 := (pySorted l).getD
          (min (pyInt (99 / 100 * (pySorted l).length)) ((pySorted l).length - 1)) 0
        min := (pySorted l).headD 0
        max := (pySorted l).getLastD 0
        mean := (pySorted l).sum / (pySorted l).length
        last := (pySorted l).getLastD 0
        count := (pySorted l).length } := by
  simp only [calculatePercentiles, if_neg hl]

lemma percentile_getD_mem {l : List ℚ} (hl : l ≠ []) (p : ℚ) :
    (pySorted l).getD
      (min (pyInt (p * (pySorted l).length)) ((pySorted l).length - 1)) 0 ∈ l := by
  have hnpos : 0 < (pySorted l).length :=
    List.length_pos.mpr (pySorted_ne_nil hl)
  have hidx :
      min (pyInt (p * (pySorted l).length)) ((pySorted l).length - 1)
        < (pySorted l).length :=
    lt_of_le_of_lt (Nat.min_le_right _ _) (Nat.sub_lt hnpos one_pos)
  rw [List.getD_eq_getElem _ _ hidx]
  exact mem_pySorted.mp (List.getElem_mem _)

/-- C7 (amended). For a nonempty retained sample list, `_calculate_percentiles`
returns: `count` = the number of retained samples, `mean` = sum divided by
count, `min`/`max` = smallest/largest retained sample, each percentile a
retained sample (the sorted element at index `int(p*n)` clamped to `n-1`),
and `last` equal to the LARGEST sample (`sorted_samples[-1]`), not the
last-inserted one.  On `[10, 20, ..., 100]`: p50 = 60, p95 = p99 = 100,
min = 10, max = 100, mean = 55, last = 100, count = 10. -/
theorem percentiles_amended :
    (∀ l : List ℚ, l ≠ [] →
      (calculatePercentiles l).count = l.length ∧
      (calculatePercentiles l).mean = l.sum / l.length ∧
      ((calculatePercentiles l).min ∈ l ∧ ∀ x ∈ l, (calculatePercentiles l).min ≤ x) ∧
      ((calculatePercentiles l).max ∈ l ∧ ∀ x ∈ l, x ≤ (calculatePercentiles l).max) ∧
      (calculatePercentiles l).last = (calculatePercentiles l).max ∧
      (calculatePercentiles l).p50 ∈ l ∧ (calculatePercentiles l).p95 ∈ l ∧
      (calculatePercentiles l).p99 ∈ l) ∧
    calculatePercentiles [10, 20, 30, 40, 50, 60, 70, 80, 90, 100]
      = { p50 := 60, p95 := 100, p99 := 100, min := 10, max := 100,
          mean := 55, last := 100, count := 10 } := by
  constructor
  · intro l hl
    have hsort := pySorted_sorted l
    rw [calculatePercentiles_of_ne_nil hl]
    refine ⟨pySorted_length l, ?_, ⟨?_, ?_⟩, ⟨?_, ?_⟩, rfl, ?_, ?_, ?_⟩
    · rw [pySorted_sum, pySorted_length]
    · exact mem_pySorted.mp (headD_mem (pySorted_ne_nil hl))
    · intro x hx
      exact sorted_headD_le hsort x (mem_pySorted.mpr hx)
    · exact mem_pySorted.mp (getLastD_mem _ _ (pySorted_ne_nil hl))
    · intro x hx
      exact sorted_le_getLastD _ hsort x (mem_pySorted.mpr hx)
    · exact percentile_getD_mem hl _
    · exact percentile_getD_mem hl _
    · exact percentile_getD_mem hl _
  · norm_num [calculatePercentiles, pySorted, pyInt,
      List.insertionSort, List.orderedInsert]
    decide

/-- Witness for `percentiles_amended` at the claim's concrete sample set. -/
theorem percentiles_amended_witness :
    (([10, 20, 30, 40, 50, 60, 70, 80, 90, 100] : List ℚ) ≠ []) ∧
    (calculatePercentiles [10, 20, 30, 40, 50, 60, 70, 80, 90, 100]).count
      = ([10, 20, 30, 40, 50, 60, 70, 80, 90, 100] : List ℚ).length :=
  ⟨by decide,
   (percentiles_amended.1 [10, 20, 30, 40, 50, 60, 70, 80, 90, 100] (by decide)).1⟩

/-- C7 counterexample: the claim says `last` equals the last-inserted value,
but the code computes `last = sorted_samples[-1]` (the maximum).  Recording
20 and then 10 into a fresh collector yields `last = 20`, not the
last-inserted 10. -/
theorem percentile_last_counterexample :
    ((((MetricsCollector.init 1000).recordSttTtft 20 0).recordSttTtft 10 0).getMetrics.sttTtft.last
        = 20) ∧
    ¬ ((((MetricsCollector.init 1000).recordSttTtft 20 0).recordSttTtft 10 0).getMetrics.sttTtft.last
        = 10) := by
  decide

/-- Iterating `_add_sample` keeps `min (inserted, max_samples)` samples,
provided the list is not already over capacity. -/
lemma addSamples_length (m : ℕ) :
    ∀ (entries : List (ℚ × ℕ)) (s : List ℚ), s.length ≤ m →
      (addSamples m s entries).length = min (s.length + entries.length) m
  | [], s, hs => by
      simp [addSamples, Nat.min_eq_left hs]
  | (v, i) :: rest, s, hs => by
      rw [addSamples, addSample]
      by_cases hlt : s.length < m
      · rw [if_pos hlt]
        have h1 : (s ++ [v]).length ≤ m := by
          simpa using Nat.succ_le_of_lt hlt
        rw [addSamples_length m rest (s ++ [v]) h1]
        have hl2 : (s ++ [v]).length = s.length + 1 := by
          rw [List.length_append, List.length_singleton]
        rw [hl2, List.length_cons]
        congr 1
        omega
      · rw [if_neg hlt]
        have hm : s.length = m := le_antisymm hs (not_lt.mp hlt)
        have h1 : (s.set i v).length ≤ m := by
          rw [List.length_set]; exact hs
        rw [addSamples_length m rest (s.set i v) h1]
        rw [List.length_set, hm]
        simp only [List.length_cons]
        rw [Nat.min_eq_right (Nat.le_add_right m rest.length),
            Nat.min_eq_right (Nat.le_add_right m (rest.length + 1))]

/-- C8: starting from an empty sample set, any sequence of `N` insertions
through `_add_sample` (with arbitrary replacement-slot draws) retains
exactly `min (N, max_samples)` samples, and in particular never more than
`max_samples`. -/
theorem reservoir_bound (m : ℕ) (entries : List (ℚ × ℕ)) :
    (addSamples m [] entries).length = min entries.length m ∧
    (addSamples m [] entries).length ≤ m := by
  have h := addSamples_length m entries [] (by simp)
  simp only [List.length_nil, Nat.zero_add] at h
  exact ⟨h, h ▸ Nat.min_le_right _ _⟩

/-- C10: on a freshly constructed collector, and after `reset()` from any
state, `get_metrics()` returns the all-zero `PercentileStats` (count 0) for
each of the three sample sets; `_calculate_percentiles` never indexes into
the empty list because of its early return. -/
theorem empty_metrics_zero :
    ((MetricsCollector.init 1000).getMetrics.sttTtft
        = (⟨0, 0, 0, 0, 0, 0, 0, 0⟩ : PercentileStats) ∧
     (MetricsCollector.init 1000).getMetrics.ttsTtfb
        = (⟨0, 0, 0, 0, 0, 0, 0, 0⟩ : PercentileStats) ∧
     (MetricsCollector.init 1000).getMetrics.e2eLatency
        = (⟨0, 0, 0, 0, 0, 0, 0, 0⟩ : PercentileStats)) ∧
    ∀ c : MetricsCollector,
      c.reset.getMetrics.sttTtft = (⟨0, 0, 0, 0, 0, 0, 0, 0⟩ : PercentileStats) ∧
      c.reset.getMetrics.ttsTtfb = (⟨0, 0, 0, 0, 0, 0, 0, 0⟩ : PercentileStats) ∧
      c.reset.getMetrics.e2eLatency = (⟨0, 0, 0, 0, 0, 0, 0, 0⟩ : PercentileStats) :=
  ⟨⟨rfl, rfl, rfl⟩, fun _ => ⟨rfl, rfl, rfl⟩⟩

/-! ## Event emitters (`WebSocketSession.on/_emit`, `BudRealtime.on/_emit`)

Handlers are identified by numbers; `raises : ℕ → Bool` tells which handlers
raise when invoked.  The handler dictionaries are keyed by event-name string;
`on` reads and writes only the named event's list, so registration is
modelled on that list. -/

/-- The eight event names pre-registered as keys of `BudRealtime._handlers`
in `__init__`; `on` logs a warning and ignores any other name, and no other
key is ever added to the dict. -/
def rtKnownEvents : List String :=
  ["audio", "transcript", "function_call", "emotion",
   "connected", "disconnected", "state_change", "error"]

/-- `WebSocketSession.on`: get-or-create the event's handler list, then
append unconditionally. -/
def wsOn (hs : List ℕ) (h : ℕ) : List ℕ :=
  hs ++ [h]

/-- `BudRealtime.on`: unknown event names are ignored; a handler already
present in the event's list is not appended again. -/
def rtOn (event : String) (hs : List ℕ) (h : ℕ) : List ℕ :=
  if event ∈ rtKnownEvents then
    if h ∈ hs then hs else hs ++ [h]
  else hs

/-- `BudRealtime._emit`: invoke every registered handler in order; an
exception raised by a handler is caught and logged inside the loop, so the
result invokes all handlers and the propagation flag is always false. -/
def rtEmit : List ℕ → (ℕ → Bool) → List ℕ × Bool
  | [], _ => ([], false)
  | h :: rest, raises =>
      let tail := rtEmit rest raises
      (h :: tail.1, tail.2)

/-- The handler loop of one `WebSocketSession._emit` frame: each handler is
invoked (recorded as `(event, handler)`); a raising handler triggers the
re-entrant `self._emit("error", e)`, supplied here as `emitError`.  If that
re-entrant emission itself propagates an exception (RecursionError), the
raise happens inside the `except` block, so it aborts the loop and
propagates further. -/
def wsEmitRun (raises : ℕ → Bool) (emitError : Unit → List (String × ℕ) × Bool)
    (event : String) : List ℕ → List (String × ℕ) × Bool
  | [] => ([], false)
  | h :: rest =>
      if raises h then
        let inner := emitError ()
        if inner.2 then ((event, h) :: inner.1, true)
        else
          let tail := wsEmitRun raises emitError event rest
          ((event, h) :: (inner.1 ++ tail.1), tail.2)
      else
        let tail := wsEmitRun raises emitError event rest
        ((event, h) :: tail.1, tail.2)

/-- `WebSocketSession._emit` with an explicit call-depth budget modelling
Python's recursion limit: invoking `_emit` with no remaining depth raises
`RecursionError` at the call itself (no handler runs, the exception
propagates to the caller). -/
def wsEmitCall (hmap : String → List ℕ) (raises : ℕ → Bool) :
    ℕ → String → List (String × ℕ) × Bool
  | 0, _ => ([], true)
  | fuel + 1, event =>
      wsEmitRun raises (fun _ => wsEmitCall hmap raises fuel "error") event (hmap event)

/-- C5 counterexample: `WebSocketSession.on` has no duplicate-registration
guard — registering handler 7 twice for `"transcript"` leaves the handler
list `[7, 7]`, so the handler would be invoked twice per emission, not
once as the claim states. -/
theorem ws_on_duplicate_counterexample :
    wsOn (wsOn [] 7) 7 = [7, 7] ∧
    (wsOn (wsOn [] 7) 7).count 7 = 2 ∧
    ¬ ((wsOn (wsOn [] 7) 7).count 7 = 1) := by
  decide

/-- C5 (amended): `BudRealtime.on` does ignore a duplicate registration —
for a known event whose list does not yet hold `h`, two registrations leave
exactly one copy of `h` — but `WebSocketSession.on` appends unconditionally,
so there a double registration always adds two copies (each invoked once
per emission). -/
theorem on_duplicate_amended :
    (∀ (e : String) (hs : List ℕ) (h : ℕ), e ∈ rtKnownEvents →
      hs.count h = 0 → (rtOn e (rtOn e hs h) h).count h = 1) ∧
    (∀ (hs : List ℕ) (h : ℕ), (wsOn (wsOn hs h) h).count h = hs.count h + 2) := by
  constructor
  · intro e hs h he hc
    have hnot : h ∉ hs := List.count_eq_zero.mp hc
    have h1 : rtOn e hs h = hs ++ [h] := by
      rw [rtOn, if_pos he, if_neg hnot]
    rw [h1, rtOn, if_pos he,
      if_pos (List.mem_append_right hs (List.mem_singleton_self h)),
      List.count_append, hc, List.count_singleton]
    simp
  · intro hs h
    rw [wsOn, wsOn, List.append_assoc, List.count_append, List.count_append,
      List.count_singleton]
    simp

/-- Witness for `on_duplicate_amended` at a concrete event and handler. -/
theorem on_duplicate_amended_witness :
    ("audio" ∈ rtKnownEvents) ∧ (([] : List ℕ).count 7 = 0) ∧
    (rtOn "audio" (rtOn "audio" [] 7) 7).count 7 = 1 :=
  ⟨by decide, by decide, on_duplicate_amended.1 "audio" [] 7 (by decide) (by decide)⟩

/-- The concrete handler table for the C6 counterexample: handlers 0 and 1
registered for `"request"`, handler 9 registered for `"error"`. -/
def counterHmap : String → List ℕ :=
  fun e => if e = "error" then [9] else if e = "request" then [0, 1] else []

/-- Handlers 0 and 9 raise when invoked; handler 1 does not. -/
def counterRaises : ℕ → Bool :=
  fun h => h == 0 || h == 9

/-- C6 counterexample: with a raising handler registered for the `"error"`
event, `WebSocketSession._emit` re-enters itself unboundedly — the handler
raises, `_emit("error", e)` invokes it again, and so on until the call depth
is exhausted and a `RecursionError` escapes the original emit call; the
later-registered handler 1 for the same event is never invoked.  (Depth
budget 5 shown; the propagation happens for every budget.) -/
theorem emit_isolation_counterexample :
    (wsEmitCall counterHmap counterRaises 5 "request").2 = true ∧
    ("request", 1) ∉ (wsEmitCall counterHmap counterRaises 5 "request").1 := by
  decide

lemma wsEmitRun_no_raise (raises : ℕ → Bool)
    (emitError : Unit → List (String × ℕ) × Bool) (e : String) :
    ∀ l : List ℕ, (∀ h ∈ l, raises h = false) →
      wsEmitRun raises emitError e l = (l.map (fun h => (e, h)), false)
  | [], _ => rfl
  | h :: rest, hl => by
      have hh : raises h = false := hl h (List.mem_cons_self h rest)
      rw [wsEmitRun, if_neg (by rw [hh]; exact Bool.false_ne_true)]
      rw [wsEmitRun_no_raise raises emitError e rest
        (fun x hx => hl x (List.mem_cons_of_mem h hx))]
      simp

lemma wsEmitRun_all_invoked (raises : ℕ → Bool)
    (emitError : Unit → List (String × ℕ) × Bool) (e : String)
    (hee : (emitError ()).2 = false) :
    ∀ l : List ℕ, (wsEmitRun raises emitError e l).2 = false ∧
      ∀ h ∈ l, (e, h) ∈ (wsEmitRun raises emitError e l).1
  | [] => ⟨rfl, by simp⟩
  | h :: rest => by
      have ih := wsEmitRun_all_invoked raises emitError e hee rest
      rw [wsEmitRun]
      by_cases hr : raises h = true
      · rw [if_pos hr, if_neg (by rw [hee]; exact Bool.false_ne_true)]
        refine ⟨ih.1, ?_⟩
        intro x hx
        rcases List.mem_cons.mp hx with rfl | hxr
        · exact List.mem_cons_self _ _
        · exact List.mem_cons_of_mem _
            (List.mem_append_right _ (ih.2 x hxr))
      · rw [if_neg hr]
        refine ⟨ih.1, ?_⟩
        intro x hx
        rcases List.mem_cons.mp hx with rfl | hxr
        · exact List.mem_cons_self _ _
        · exact List.mem_cons_of_mem _ (ih.2 x hxr)

/-- C6 (amended): `BudRealtime._emit` fully isolates handler exceptions —
every handler is invoked in order and nothing ever propagates out of the
emit call.  For `WebSocketSession._emit` the isolation holds provided no
handler registered for the `"error"` event raises: then no exception
escapes the emit call and every handler of the emitted event is invoked.
(With a raising `"error"` handler, the re-entrant error emission overflows
the call stack and the exception escapes — see the counterexample.) -/
theorem emit_isolation_amended :
    (∀ (hs : List ℕ) (raises : ℕ → Bool), rtEmit hs raises = (hs, false)) ∧
    (∀ (hmap : String → List ℕ) (raises : ℕ → Bool) (n : ℕ) (e : String),
      (∀ h ∈ hmap "error", raises h = false) →
      (wsEmitCall hmap raises (n + 2) e).2 = false ∧
      ∀ h ∈ hmap e, (e, h) ∈ (wsEmitCall hmap raises (n + 2) e).1) := by
  constructor
  · intro hs raises
    induction hs with
    | nil => rfl
    | cons h rest ih => rw [rtEmit, ih]
  · intro hmap raises n e herr
    have hinner : (wsEmitCall hmap raises (n + 1) "error").2 = false := by
      rw [wsEmitCall, wsEmitRun_no_raise raises _ "error" (hmap "error") herr]
    rw [wsEmitCall]
    exact wsEmitRun_all_invoked raises _ e hinner (hmap e)

/-- The handler table used by the witness of `emit_isolation_amended`:
a raising handler 0 and a well-behaved handler 1 on `"transcript"`, no
`"error"` handlers. -/
def witnessHmap : String → List ℕ :=
  fun e => if e = "transcript" then [0, 1] else []

/-- Witness for `emit_isolation_amended`: a raising handler on an ordinary
event with no raising error handlers — no exception escapes. -/
theorem emit_isolation_amended_witness :
    (∀ h ∈ witnessHmap "error", (fun x => x == 0) h = false) ∧
    (wsEmitCall witnessHmap (fun x => x == 0) 2 "transcript").2 = false :=
  ⟨by decide,
   (emit_isolation_amended.2 witnessHmap (fun x => x == 0) 0 "transcript"
     (by decide)).1⟩

/-! ## Reconnect with backoff (`WebSocketSession._reconnect`)

`_reconnect` loops `for attempt in range(max_retries)`: it sleeps
`(delay + delay*jitter*(random()*2-1)) / 1000` seconds, then calls
`connect()`; on success it records the reconnect and returns, on failure it
stores the error and sets `delay = min(delay*multiplier, max_delay_ms)`.
After the loop it raises `ReconnectError(attempts=max_retries,
last_error=...)`.  The jitter draws `u k ∈ [-1, 1)` and the per-attempt
`connect()` outcomes are explicit inputs; errors are identified by
numbers. -/

/-- `ReconnectConfig` dataclass with its Python defaults. -/
structure ReconnectConfig where
  enabled : Bool := true
  initialDelayMs : ℚ := 1000
  maxDelayMs : ℚ := 30000
  multiplier : ℚ := 3 / 2
  maxRetries : ℕ := 10
  jitter : ℚ := 1 / 5
deriving Repr, DecidableEq

/-- `ReconnectConfig()`. -/
def defaultReconnectConfig : ReconnectConfig := {}

/-- Outcome of `_reconnect`: either some `connect()` attempt succeeded
(`attempt + 1` is emitted with the `reconnect` event), or every attempt
failed and `ReconnectError(attempts=max_retries, last_error=...)` is
raised. -/
inductive ReconnectResult
  | success (attemptNumber : ℕ)
  | reconnectFailed (attempts : ℕ) (lastError : Option ℕ)
deriving Repr, DecidableEq

/-- The `_reconnect` loop from iteration `k` with `remaining` iterations
left, current base `delay` and stored last error.  Returns the final
result, the list of slept wait times, and the number of `connect()` calls
made. -/
def reconnectLoop (cfg : ReconnectConfig) (u : ℕ → ℚ) (outcome : ℕ → Option ℕ) :
    ℕ → ℕ → ℚ → Option ℕ → ReconnectResult × List ℚ × ℕ
  | 0, _, _, lastErr => (.reconnectFailed cfg.maxRetries lastErr, [], 0)
  | remaining + 1, k, delay, _ =>
      let wait := (delay + delay * cfg.jitter * u k) / 1000
      match outcome k with
      | none => (.success (k + 1), [wait], 1)
      | some e =>
          let rest := reconnectLoop cfg u outcome remaining (k + 1)
            (min (delay * cfg.multiplier) cfg.maxDelayMs) (some e)
          (rest.1, wait :: rest.2.1, rest.2.2 + 1)

/-- `WebSocketSession._reconnect`. -/
def reconnect (cfg : ReconnectConfig) (u : ℕ → ℚ) (outcome : ℕ → Option ℕ) :
    ReconnectResult × List ℚ × ℕ :=
  reconnectLoop cfg u outcome cfg.maxRetries 0 cfg.initialDelayMs none

/-- The base delay sequence starting from `d`: multiplied by `multiplier`
and capped at `max_delay_ms` after each failed attempt. -/
def baseDelayFrom (cfg : ReconnectConfig) (d : ℚ) : ℕ → ℚ
  | 0 => d
  | k + 1 => min (baseDelayFrom cfg d k * cfg.multiplier) cfg.maxDelayMs

/-- The base delay before the k-th reconnect attempt. -/
def baseDelay (cfg : ReconnectConfig) : ℕ → ℚ :=
  baseDelayFrom cfg cfg.initialDelayMs

lemma reconnectLoop_calls_le (cfg : ReconnectConfig) (u : ℕ → ℚ)
    (outcome : ℕ → Option ℕ) :
    ∀ (r k : ℕ) (d : ℚ) (le : Option ℕ),
      (reconnectLoop cfg u outcome r k d le).2.2 ≤ r
  | 0, _, _, _ => Nat.le_refl 0
  | r + 1, k, d, le => by
      rw [reconnectLoop]
      cases houtcome : outcome k with
      | none => simp
      | some e =>
          simp only
          exact Nat.succ_le_succ
            (reconnectLoop_calls_le cfg u outcome r (k + 1) _ (some e))

lemma reconnectLoop_all_fail (cfg : ReconnectConfig) (u : ℕ → ℚ)
    (outcome : ℕ → Option ℕ) :
    ∀ (r k : ℕ) (d : ℚ) (le : Option ℕ),
      (∀ j, j ≤ r → (outcome (k + j)).isSome) →
      (reconnectLoop cfg u outcome (r + 1) k d le).1
          = .reconnectFailed cfg.maxRetries (outcome (k + r)) ∧
      (reconnectLoop cfg u outcome (r + 1) k d le).2.2 = r + 1
  | 0, k, d, le, hf => by
      obtain ⟨e, he⟩ := Option.isSome_iff_exists.mp (hf 0 (Nat.le_refl 0))
      rw [Nat.add_zero] at he
      rw [reconnectLoop, he]
      simp [reconnectLoop, he]
  | r + 1, k, d, le, hf => by
      obtain ⟨e, he⟩ := Option.isSome_iff_exists.mp (hf 0 (Nat.zero_le _))
      rw [Nat.add_zero] at he
      have ih := reconnectLoop_all_fail cfg u outcome r (k + 1)
        (min (d * cfg.multiplier) cfg.maxDelayMs) (some e)
        (fun j hj => by
          have := hf (j + 1) (Nat.succ_le_succ hj)
          rwa [show k + (j + 1) = k + 1 + j by omega] at this)
      rw [reconnectLoop, he]
      simp only
      refine ⟨?_, ?_⟩
      · rw [ih.1]
        rw [show k + 1 + r = k + (r + 1) by omega]
      · rw [ih.2]

/-- C2: the `_reconnect` loop makes at most `max_retries` `connect()`
calls; if every attempt fails, it raises `ReconnectError` whose `attempts`
field is `max_retries` and whose `last_error` is the error of the final
attempt. -/
theorem reconnect_bound (cfg : ReconnectConfig) (u : ℕ → ℚ)
    (outcome : ℕ → Option ℕ) :
    (reconnect cfg u outcome).2.2 ≤ cfg.maxRetries ∧
    (1 ≤ cfg.maxRetries → (∀ j, j < cfg.maxRetries → (outcome j).isSome) →
      (reconnect cfg u outcome).1
        = ReconnectResult.reconnectFailed cfg.maxRetries
            (outcome (cfg.maxRetries - 1))) := by
  constructor
  · exact reconnectLoop_calls_le cfg u outcome cfg.maxRetries 0 _ none
  · intro h1 hfail
    rw [reconnect]
    cases hm : cfg.maxRetries with
    | zero => omega
    | succ r =>
        have hf : ∀ j, j ≤ r → (outcome (0 + j)).isSome := by
          intro j hj
          rw [Nat.zero_add]
          exact hfail j (by omega)
        have := (reconnectLoop_all_fail cfg u outcome r 0 cfg.initialDelayMs none hf).1
        rw [this, hm, Nat.zero_add]
        congr 2

/-- Witness for `reconnect_bound` at `max_retries = 3` with every attempt
failing with error 0. -/
theorem reconnect_bound_witness :
    (1 ≤ (3:ℕ)) ∧
    (reconnect ⟨true, 1000, 30000, 3 / 2, 3, 1 / 5⟩ (fun _ => 0) (fun _ => some 0)).1
      = ReconnectResult.reconnectFailed 3 (some 0) :=
  ⟨by decide,
   (reconnect_bound ⟨true, 1000, 30000, 3 / 2, 3, 1 / 5⟩ (fun _ => 0)
     (fun _ => some 0)).2 (by decide) (fun j _ => rfl)⟩

lemma baseDelayFrom_shift (cfg : ReconnectConfig) (d : ℚ) :
    ∀ j, baseDelayFrom cfg d (j + 1)
      = baseDelayFrom cfg (min (d * cfg.multiplier) cfg.maxDelayMs) j
  | 0 => rfl
  | j + 1 => by
      have h1 : baseDelayFrom cfg d (j + 1 + 1)
          = min (baseDelayFrom cfg d (j + 1) * cfg.multiplier) cfg.maxDelayMs := rfl
      rw [h1, baseDelayFrom_shift cfg d j]
      rfl

lemma baseDelayFrom_nonneg (cfg : ReconnectConfig) (d : ℚ)
    (hd : 0 ≤ d) (hm : 0 ≤ cfg.multiplier) (hmax : 0 ≤ cfg.maxDelayMs) :
    ∀ k, 0 ≤ baseDelayFrom cfg d k
  | 0 => hd
  | k + 1 =>
      le_min (mul_nonneg (baseDelayFrom_nonneg cfg d hd hm hmax k) hm) hmax

lemma reconnectLoop_waits (cfg : ReconnectConfig) (u : ℕ → ℚ)
    (outcome : ℕ → Option ℕ) :
    ∀ (r k : ℕ) (d : ℚ) (le : Option ℕ),
      (∀ j, j < r → (outcome (k + j)).isSome) →
      (reconnectLoop cfg u outcome r k d le).2.1
        = (List.range r).map
            (fun j => (baseDelayFrom cfg d j
              + baseDelayFrom cfg d j * cfg.jitter * u (k + j)) / 1000)
  | 0, _, _, _, _ => by simp [reconnectLoop]
  | r + 1, k, d, le, hf => by
      have h0 : (outcome (k + 0)).isSome := hf 0 (Nat.succ_pos r)
      rw [Nat.add_zero] at h0
      obtain ⟨e, he⟩ := Option.isSome_iff_exists.mp h0
      have ih := reconnectLoop_waits cfg u outcome r (k + 1)
        (min (d * cfg.multiplier) cfg.maxDelayMs) (some e)
        (fun j hj => by
          have := hf (j + 1) (Nat.succ_lt_succ hj)
          rwa [show k + (j + 1) = k + 1 + j by omega] at this)
      rw [reconnectLoop, he]
      simp only
      rw [ih, List.range_succ_eq_map, List.map_cons, List.map_map]
      congr 1
      apply List.map_congr_left
      intro j _
      simp only [Function.comp]
      rw [baseDelayFrom_shift, show k + (j + 1) = k + 1 + j by omega]

/-- The reconnect configuration of the C3 counterexample: multiplier 1.1
with jitter fraction 0.9 (both legal field values of the dataclass). -/
def cexCfg : ReconnectConfig := ⟨true, 1000, 30000, 11 / 10, 2, 9 / 10⟩

/-- Jitter draws for the C3 counterexample: +0.5 on the first attempt,
-0.5 afterwards (both inside the draw range `[-1, 1)` of
`random.random()*2 - 1`). -/
def cexJitterDraw : ℕ → ℚ := fun k => if k = 0 then 1 / 2 else -(1 / 2)

/-- C3 counterexample: with both attempts failing, the realized waits are
1.45 s then 0.605 s — the delay between successive attempts DECREASES even
though the base delay (1000 then 1100 ms) is still strictly below
`max_delay_ms`, refuting "for every realization of the jitter the delay is
non-decreasing up to max_delay_ms". -/
theorem backoff_monotone_counterexample :
    (reconnect cexCfg cexJitterDraw (fun _ => some 0)).2.1 = [29 / 20, 121 / 200] ∧
    ((121 : ℚ) / 200 < 29 / 20) ∧
    baseDelay cexCfg 1 < cexCfg.maxDelayMs ∧
    baseDelay cexCfg 0 < cexCfg.maxDelayMs := by
  have hb0 : baseDelayFrom cexCfg cexCfg.initialDelayMs 0 = 1000 := rfl
  have hb1 : baseDelayFrom cexCfg cexCfg.initialDelayMs 1
      = min (1000 * (11 / 10)) 30000 := rfl
  refine ⟨?_, by norm_num, ?_, ?_⟩
  · have h := reconnectLoop_waits cexCfg cexJitterDraw (fun _ => some 0)
      cexCfg.maxRetries 0 cexCfg.initialDelayMs none (fun j _ => rfl)
    rw [reconnect, h, show List.range cexCfg.maxRetries = [0, 1] from rfl,
      List.map_cons, List.map_cons, List.map_nil, hb0, hb1]
    norm_num [cexJitterDraw, cexCfg, min_def]
  · rw [show baseDelay cexCfg 1 = min (1000 * (11 / 10)) 30000 from hb1]
    norm_num [cexCfg, min_def]
  · rw [show baseDelay cexCfg 0 = 1000 from hb0]
    norm_num [cexCfg]

/-- C3 (amended): when every attempt fails, the k-th wait is
`(d_k + d_k * jitter * u_k) / 1000` seconds where `d_0 = initial_delay_ms`
and `d_(k+1) = min(d_k * multiplier, max_delay_ms)` — exponential backoff
with the claimed cap and symmetric jitter.  The realized waits are
non-decreasing for every jitter realization only under the additional
condition `1 + jitter ≤ multiplier * (1 - jitter)` (and while the next
base delay is not yet capped); the default configuration
(multiplier 1.5, jitter 0.2) satisfies that condition exactly. -/
theorem backoff_amended :
    (∀ (cfg : ReconnectConfig) (u : ℕ → ℚ) (outcome : ℕ → Option ℕ),
      (∀ j, j < cfg.maxRetries → (outcome j).isSome) →
      (reconnect cfg u outcome).2.1
        = (List.range cfg.maxRetries).map
            (fun k => (baseDelay cfg k + baseDelay cfg k * cfg.jitter * u k) / 1000)) ∧
    (∀ (cfg : ReconnectConfig) (u : ℕ → ℚ) (k : ℕ),
      0 ≤ cfg.initialDelayMs → 0 ≤ cfg.multiplier → 0 ≤ cfg.maxDelayMs →
      0 ≤ cfg.jitter → (∀ i, -1 ≤ u i ∧ u i ≤ 1) →
      1 + cfg.jitter ≤ cfg.multiplier * (1 - cfg.jitter) →
      baseDelay cfg k * cfg.multiplier ≤ cfg.maxDelayMs →
      (baseDelay cfg k + baseDelay cfg k * cfg.jitter * u k) / 1000
        ≤ (baseDelay cfg (k + 1) + baseDelay cfg (k + 1) * cfg.jitter * u (k + 1)) / 1000) ∧
    1 + defaultReconnectConfig.jitter
      ≤ defaultReconnectConfig.multiplier * (1 - defaultReconnectConfig.jitter) := by
  refine ⟨?_, ?_, by norm_num [defaultReconnectConfig]⟩
  · intro cfg u outcome hfail
    rw [reconnect, reconnectLoop_waits cfg u outcome cfg.maxRetries 0
      cfg.initialDelayMs none
      (fun j hj => by rw [Nat.zero_add]; exact hfail j hj)]
    apply List.map_congr_left
    intro j _
    rw [Nat.zero_add]
    rfl
  · intro cfg u k hd0 hm hmax hj hu hkey hcap
    have hd : 0 ≤ baseDelay cfg k := baseDelayFrom_nonneg cfg _ hd0 hm hmax k
    have hd1 : baseDelay cfg (k + 1) = baseDelay cfg k * cfg.multiplier := by
      show min (baseDelay cfg k * cfg.multiplier) cfg.maxDelayMs = _
      exact min_eq_left hcap
    rw [hd1]
    rw [div_le_div_iff_of_pos_right (by norm_num : (0:ℚ) < 1000)]
    have hdm : 0 ≤ baseDelay cfg k * cfg.multiplier := mul_nonneg hd hm
    calc baseDelay cfg k + baseDelay cfg k * cfg.jitter * u k
        = baseDelay cfg k * (1 + cfg.jitter * u k) := by ring
      _ ≤ baseDelay cfg k * (1 + cfg.jitter) := by
          apply mul_le_mul_of_nonneg_left _ hd
          have := mul_le_mul_of_nonneg_left (hu k).2 hj
          linarith
      _ ≤ baseDelay cfg k * (cfg.multiplier * (1 - cfg.jitter)) :=
          mul_le_mul_of_nonneg_left hkey hd
      _ = (baseDelay cfg k * cfg.multiplier) * (1 - cfg.jitter) := by ring
      _ ≤ (baseDelay cfg k * cfg.multiplier) * (1 + cfg.jitter * u (k + 1)) := by
          apply mul_le_mul_of_nonneg_left _ hdm
          have := mul_le_mul_of_nonneg_left (hu (k + 1)).1 hj
          linarith
      _ = baseDelay cfg k * cfg.multiplier
            + baseDelay cfg k * cfg.multiplier * cfg.jitter * u (k + 1) := by ring

/-- Witness for `backoff_amended` at the default configuration with zero
jitter draws. -/
theorem backoff_amended_witness :
    baseDelay defaultReconnectConfig 0 * defaultReconnectConfig.multiplier
        ≤ defaultReconnectConfig.maxDelayMs ∧
    (baseDelay defaultReconnectConfig 0
        + baseDelay defaultReconnectConfig 0 * defaultReconnectConfig.jitter * 0) / 1000
      ≤ (baseDelay defaultReconnectConfig 1
        + baseDelay defaultReconnectConfig 1 * defaultReconnectConfig.jitter * 0) / 1000 := by
  have hcap : baseDelay defaultReconnectConfig 0 * defaultReconnectConfig.multiplier
      ≤ defaultReconnectConfig.maxDelayMs := by
    rw [show baseDelay defaultReconnectConfig 0 = 1000 from rfl]
    norm_num [defaultReconnectConfig]
  exact ⟨hcap,
    backoff_amended.2.1 defaultReconnectConfig (fun _ => 0) 0
      (by norm_num [defaultReconnectConfig])
      (by norm_num [defaultReconnectConfig])
      (by norm_num [defaultReconnectConfig])
      (by norm_num [defaultReconnectConfig])
      (fun _ => by norm_num)
      (by norm_num [defaultReconnectConfig])
      hcap⟩

/-! ## `WebSocketSession.connect` failure paths (C1)

`connect()` (session.py 263-339): if already connected or connecting it
returns immediately.  Otherwise it sets `_connecting = True`,
`_closed = False`, opens the socket (raising `TimeoutError` or
`ConnectionError` on failure), then sets `_ws`, `_connected = True`,
`_connecting = False`, starts the receive task, sends the config frame and
waits for the ready event (raising `TimeoutError` on expiry); on success it
flushes the pending audio buffer.  The single `except Exception` handler
only resets `_connecting` and `_connected` before re-raising — it does not
cancel `_receive_task`, close `_ws`, or reset them to `None`. -/

inductive ConnectFailure
  | connTimeout
  | connRefused
  | readyTimeout
deriving Repr, DecidableEq

/-- Result of `await websockets.connect(...)` under `wait_for`. -/
inductive OpenResult
  | ok
  | timeout
  | failed
deriving Repr, DecidableEq

/-- The `WebSocketSession` state touched by `connect`/`disconnect`. -/
structure WSSession where
  connected : Bool
  connecting : Bool
  closed : Bool
  ws : Option Unit
  receiveTask : Option Unit
  pendingAudio : List (List ℕ)
deriving Repr, DecidableEq

/-- A freshly constructed session. -/
def WSSession.fresh : WSSession := ⟨false, false, false, none, none, []⟩

/-- `WebSocketSession.connect(timeout)`: returns the post-call state and
the failure raised to the caller, if any. -/
def wsConnect (s : WSSession) (openR : OpenResult) (readyArrives : Bool) :
    WSSession × Option ConnectFailure :=
  if s.connected || s.connecting then (s, none)
  else
    let s1 : WSSession := { s with connecting := true, closed := false }
    match openR with
    | .timeout =>
        ({ s1 with connecting := false, connected := false }, some .connTimeout)
    | .failed =>
        ({ s1 with connecting := false, connected := false }, some .connRefused)
    | .ok =>
        let s2 : WSSession :=
          { s1 with
            ws := some ()
            connected := true
            connecting := false
            receiveTask := some () }
        if readyArrives then
          ({ s2 with pendingAudio := [] }, none)
        else
          ({ s2 with connecting := false, connected := false }, some .readyTimeout)

/-! ## `BudRealtime` connection state machine (C1, C4)

realtime.py: `_set_state` stores the new state and emits `state_change`
with (previous, current); `_cleanup_on_error` cancels the receive task,
closes the socket, nulls both, transitions to ERROR and emits
`disconnected`; `connect` serializes under the connect lock, no-ops when
already CONNECTED/CONNECTING, otherwise transitions to CONNECTING, opens
the socket, transitions to CONNECTED, resets the attempt counter, emits
`connected`, pushes the session config (cleaning up and re-raising on
failure), and only then starts the receive loop; `_handle_close(code)`
runs in the receive task: a non-1000 code with attempts remaining
transitions to RECONNECTING, bumps the counter, sleeps and re-enters
`connect` (falling through to ERROR + `disconnected` if that raises), a
non-1000 code with attempts exhausted goes to ERROR, and code 1000 goes to
DISCONNECTED; `disconnect` cancels the task, closes the socket and goes to
DISCONNECTED. -/

inductive RState
  | disconnected
  | connecting
  | connected
  | reconnecting
  | error
deriving Repr, DecidableEq, Fintype

/-- The `BudRealtime` connection-lifecycle state. -/
structure RTConn where
  state : RState
  ws : Option Unit
  receiveTask : Option Unit
  reconnectAttempts : ℕ
  url : Option String
deriving Repr, DecidableEq

/-- A freshly constructed `BudRealtime`. -/
def RTConn.fresh : RTConn := ⟨.disconnected, none, none, 0, none⟩

/-- Events observable from the router relevant to the state machine. -/
inductive REvent
  | stateChange (previous current : RState)
  | connectedEv
  | disconnectedEv
deriving Repr, DecidableEq

/-- `BudRealtime._set_state`. -/
def rtSetState (s : RTConn) (st : RState) : RTConn × REvent :=
  ({ s with state := st }, .stateChange s.state st)

/-- `BudRealtime._cleanup_on_error`. -/
def rtCleanupOnError (s : RTConn) : RTConn × List REvent :=
  let s1 : RTConn := { s with receiveTask := none, ws := none }
  let p := rtSetState s1 .error
  (p.1, [p.2, .disconnectedEv])

/-- Outcome of the fallible steps inside one `connect` call. -/
inductive ConnectOutcome
  | ok
  | openTimeout
  | openFailed
  | configFailed
deriving Repr, DecidableEq, Fintype

/-- `BudRealtime.connect(url)`: post-state, emitted events, and whether an
exception was raised to the caller. -/
def rtConnect (s : RTConn) (url : String) (outcome : ConnectOutcome) :
    RTConn × List REvent × Bool :=
  if s.state = .connected ∨ s.state = .connecting then (s, [], false)
  else
    let s1 : RTConn := { s with url := some url }
    let p1 := rtSetState s1 .connecting
    match outcome with
    | .openTimeout =>
        let p2 := rtCleanupOnError p1.1
        (p2.1, p1.2 :: p2.2, true)
    | .openFailed =>
        let p2 := rtCleanupOnError p1.1
        (p2.1, p1.2 :: p2.2, true)
    | .configFailed =>
        let s3 : RTConn := { p1.1 with ws := some () }
        let p2 := rtSetState s3 .connected
        let s5 : RTConn := { p2.1 with reconnectAttempts := 0 }
        let p3 := rtCleanupOnError s5
        (p3.1, p1.2 :: p2.2 :: .connectedEv :: p3.2, true)
    | .ok =>
        let s3 : RTConn := { p1.1 with ws := some () }
        let p2 := rtSetState s3 .connected
        let s5 : RTConn :=
          { p2.1 with reconnectAttempts := 0, receiveTask := some () }
        (s5, [p1.2, p2.2, .connectedEv], false)

/-- `BudRealtime.disconnect`. -/
def rtDisconnect (s : RTConn) : RTConn × List REvent :=
  let s1 : RTConn := { s with receiveTask := none, ws := none }
  let p := rtSetState s1 .disconnected
  (p.1, [p.2, .disconnectedEv])

/-- `BudRealtime._handle_close(code)`; `nested` is the outcome of the
re-entrant `connect` call of the reconnect path. -/
def rtHandleClose (s : RTConn) (code : ℕ) (nested : ConnectOutcome) :
    RTConn × List REvent :=
  if code ≠ 1000 then
    if s.reconnectAttempts < 3 ∧ s.url.isSome then
      let p1 := rtSetState s .reconnecting
      let s2 : RTConn := { p1.1 with reconnectAttempts := p1.1.reconnectAttempts + 1 }
      let c := rtConnect s2 (s2.url.getD "") nested
      if c.2.2 then
        let p2 := rtSetState c.1 .error
        (p2.1, (p1.2 :: c.2.1) ++ [p2.2, .disconnectedEv])
      else
        (c.1, p1.2 :: c.2.1)
    else
      let p1 := rtSetState s .error
      (p1.1, [p1.2, .disconnectedEv])
  else
    let p1 := rtSetState s .disconnected
    (p1.1, [p1.2, .disconnectedEv])

/-- C1 counterexample: when the socket opens but the `ready` frame never
arrives within the timeout, `WebSocketSession.connect` raises
`TimeoutError` to the caller while the receive-loop task is still running
and the socket is still open — the claimed full cleanup does not happen. -/
theorem connect_cleanup_counterexample :
    (wsConnect WSSession.fresh OpenResult.ok false).2
        = some ConnectFailure.readyTimeout ∧
    (wsConnect WSSession.fresh OpenResult.ok false).1.receiveTask = some () ∧
    (wsConnect WSSession.fresh OpenResult.ok false).1.ws = some () := by
  decide

/-- C1 (amended): `BudRealtime.connect` does perform full cleanup on every
failure path — after a raising `connect` the receive task and socket are
`None` and the state is ERROR.  `WebSocketSession.connect`, however, only
resets the `_connected`/`_connecting` flags on failure; on the
ready-timeout path the receive task keeps running and the socket stays
open (see the counterexample). -/
theorem connect_cleanup_amended :
    (∀ (s : RTConn) (url : String) (outcome : ConnectOutcome),
      (rtConnect s url outcome).2.2 = true →
      (rtConnect s url outcome).1.receiveTask = none ∧
      (rtConnect s url outcome).1.ws = none ∧
      (rtConnect s url outcome).1.state = RState.error) ∧
    (∀ (s : WSSession) (openR : OpenResult) (ready : Bool),
      (wsConnect s openR ready).2.isSome →
      (wsConnect s openR ready).1.connected = false ∧
      (wsConnect s openR ready).1.connecting = false) := by
  constructor
  · intro s url outcome hraised
    by_cases hg : s.state = RState.connected ∨ s.state = RState.connecting
    · rw [rtConnect, if_pos hg] at hraised
      exact absurd hraised (by simp)
    · cases outcome <;>
        simp [rtConnect, if_neg hg, rtSetState, rtCleanupOnError] at hraised ⊢
  · intro s openR ready hraised
    obtain ⟨c1, c2, c3, w, t, pa⟩ := s
    cases c1 <;> cases c2 <;> cases openR <;> cases ready <;>
      simp_all [wsConnect]

/-- Witness for `connect_cleanup_amended`: a socket-open timeout on a fresh
`BudRealtime`, and a refused socket open on a fresh `WebSocketSession`. -/
theorem connect_cleanup_amended_witness :
    ((rtConnect RTConn.fresh "wss://gw" ConnectOutcome.openTimeout).2.2 = true) ∧
    (rtConnect RTConn.fresh "wss://gw" ConnectOutcome.openTimeout).1.receiveTask
        = none ∧
    ((wsConnect WSSession.fresh OpenResult.failed true).2.isSome = true) ∧
    (wsConnect WSSession.fresh OpenResult.failed true).1.connected = false :=
  ⟨by decide,
   (connect_cleanup_amended.1 RTConn.fresh "wss://gw" ConnectOutcome.openTimeout
     (by decide)).1,
   by decide,
   (connect_cleanup_amended.2 WSSession.fresh OpenResult.failed true (by decide)).1⟩

/-! ### Observable traces of the realtime state machine (C4) -/

/-- Externally triggered operations on a `BudRealtime` instance.  A
`handleClose` is delivered by the receive loop, which only runs while the
session is connected. -/
inductive ROp
  | opConnect (url : String) (outcome : ConnectOutcome)
  | opHandleClose (code : ℕ) (nested : ConnectOutcome)
  | opDisconnect
deriving Repr, DecidableEq

/-- One operation step. -/
def rtStep (s : RTConn) : ROp → RTConn × List REvent
  | .opConnect url outcome =>
      let c := rtConnect s url outcome
      (c.1, c.2.1)
  | .opHandleClose code nested =>
      if s.state = .connected then rtHandleClose s code nested else (s, [])
  | .opDisconnect => rtDisconnect s

/-- Run a list of operations, tagging every emitted event with the
operation that emitted it. -/
def rtRun (s : RTConn) : List ROp → RTConn × List (ROp × REvent)
  | [] => (s, [])
  | op :: rest =>
      let st := rtStep s op
      let r := rtRun st.1 rest
      (r.1, st.2.map (fun ev => (op, ev)) ++ r.2)

/-- The transition relation the claim states: the FSM
`disconnected → connecting → connected ⟷ reconnecting → error` (with
`disconnected` reachable otherwise only through `disconnect()`). -/
def claimFSM (p c : RState) : Prop :=
  (p = .disconnected ∧ c = .connecting) ∨
  (p = .connecting ∧ c = .connected) ∨
  (p = .connected ∧ c = .reconnecting) ∨
  (p = .reconnecting ∧ c = .connected) ∨
  (p = .reconnecting ∧ c = .error)

instance (p c : RState) : Decidable (claimFSM p c) := by
  unfold claimFSM
  infer_instance

/-- The transition pairs the code actually emits: CONNECTING is entered
from DISCONNECTED, RECONNECTING or ERROR; CONNECTED only from CONNECTING;
RECONNECTING only from CONNECTED; ERROR from CONNECTING, CONNECTED or
ERROR itself; DISCONNECTED from anywhere (explicit `disconnect()` or a
normal-closure frame). -/
def codePermitted (p c : RState) : Prop :=
  (c = .connecting ∧ (p = .disconnected ∨ p = .reconnecting ∨ p = .error)) ∨
  (c = .connected ∧ p = .connecting) ∨
  (c = .reconnecting ∧ p = .connected) ∨
  (c = .error ∧ (p = .connecting ∨ p = .connected ∨ p = .error)) ∨
  c = .disconnected

instance (p c : RState) : Decidable (codePermitted p c) := by
  unfold codePermitted
  infer_instance

/-- C4 counterexample: after a successful connect, a server-initiated
normal closure (code 1000) makes `_handle_close` emit
`state_change(CONNECTED, DISCONNECTED)` with no `disconnect()` call — a
transition the claimed FSM does not permit (DISCONNECTED is claimed
reachable only via explicit `disconnect()`). -/
theorem state_machine_counterexample :
    ((ROp.opHandleClose 1000 ConnectOutcome.ok,
        REvent.stateChange RState.connected RState.disconnected)
      ∈ (rtRun RTConn.fresh
          [ROp.opConnect "wss://gw" ConnectOutcome.ok,
           ROp.opHandleClose 1000 ConnectOutcome.ok]).2) ∧
    ¬ claimFSM RState.connected RState.disconnected ∧
    ROp.opHandleClose 1000 ConnectOutcome.ok ≠ ROp.opDisconnect := by
  decide


set_option maxRecDepth 4000 in
lemma rtStep_events (s : RTConn) (op : ROp) :
    ∀ p c : RState, REvent.stateChange p c ∈ (rtStep s op).2 →
      codePermitted p c ∧ (c = RState.connected → p = RState.connecting) ∧
      (c = RState.disconnected →
        op = ROp.opDisconnect ∨ ∃ n, op = ROp.opHandleClose 1000 n) := by
  obtain ⟨st, w, t, att, u⟩ := s
  intro p c hmem
  cases op with
  | opConnect url outcome =>
      cases st <;> cases outcome <;>
        simp [rtStep, rtConnect, rtSetState, rtCleanupOnError] at hmem <;>
        cases p <;> cases c <;> simp_all [codePermitted]
  | opDisconnect =>
      cases st <;>
        simp [rtStep, rtDisconnect, rtSetState] at hmem <;>
        cases p <;> cases c <;> simp_all [codePermitted]
  | opHandleClose code nested =>
      cases st with
      | disconnected => simp [rtStep] at hmem
      | connecting => simp [rtStep] at hmem
      | reconnecting => simp [rtStep] at hmem
      | error => simp [rtStep] at hmem
      | connected =>
          rw [show rtStep ⟨RState.connected, w, t, att, u⟩
                (ROp.opHandleClose code nested)
              = rtHandleClose ⟨RState.connected, w, t, att, u⟩ code nested
            from rfl] at hmem
          by_cases hcode : code = 1000
          · subst hcode
            rw [rtHandleClose, if_neg (by norm_num)] at hmem
            simp [rtSetState] at hmem
            cases p <;> cases c <;> simp_all [codePermitted]
          · have hirrel : rtHandleClose ⟨RState.connected, w, t, att, u⟩ code nested
                = rtHandleClose ⟨RState.connected, w, t, att, u⟩ 1001 nested := by
              rw [rtHandleClose, rtHandleClose, if_pos hcode,
                if_pos (by norm_num : (1001:ℕ) ≠ 1000)]
            rw [hirrel] at hmem
            clear hirrel
            by_cases hatt : att < 3 ∧ (Option.isSome u) = true
            · rw [rtHandleClose,
                if_pos (by norm_num : (1001:ℕ) ≠ 1000), if_pos hatt] at hmem
              cases nested <;>
                simp [rtConnect, rtSetState, rtCleanupOnError] at hmem <;>
                cases p <;> cases c <;> simp_all [codePermitted]
            · rw [rtHandleClose,
                if_pos (by norm_num : (1001:ℕ) ≠ 1000), if_neg hatt] at hmem
              simp [rtSetState] at hmem
              cases p <;> cases c <;> simp_all [codePermitted]

lemma rtRun_events :
    ∀ (ops : List ROp) (s : RTConn) (op : ROp) (ev : REvent),
      (op, ev) ∈ (rtRun s ops).2 → ∃ s2, ev ∈ (rtStep s2 op).2
  | [], s, op, ev => by
      intro h
      simp [rtRun] at h
  | o :: rest, s, op, ev => by
      intro h
      rw [rtRun] at h
      simp only [List.mem_append, List.mem_map, Prod.mk.injEq] at h
      rcases h with ⟨ev2, hev2, rfl, rfl⟩ | h2
      · exact ⟨s, hev2⟩
      · exact rtRun_events rest _ op ev h2

/-- C4 (amended): in every operation trace from a fresh `BudRealtime`,
each emitted `state_change(previous, current)` pair satisfies: CONNECTING
is entered only from DISCONNECTED, RECONNECTING or ERROR; CONNECTED only
from CONNECTING (so a direct DISCONNECTED→CONNECTED is indeed never
observed); RECONNECTING only from CONNECTED; ERROR from CONNECTING,
CONNECTED or ERROR itself; and DISCONNECTED is entered not only via
explicit `disconnect()` but also when the server closes with the normal
code 1000.  The claimed FSM is therefore too strict: ERROR→CONNECTING,
CONNECTING→ERROR, CONNECTED→ERROR, ERROR→ERROR, RECONNECTING→CONNECTING
and server-initiated transitions to DISCONNECTED all occur. -/
theorem state_machine_amended :
    ∀ (ops : List ROp) (op : ROp) (p c : RState),
      (op, REvent.stateChange p c) ∈ (rtRun RTConn.fresh ops).2 →
      codePermitted p c ∧
      (c = RState.connected → p = RState.connecting) ∧
      (c = RState.disconnected →
        op = ROp.opDisconnect ∨ ∃ n, op = ROp.opHandleClose 1000 n) := by
  intro ops op p c hmem
  obtain ⟨s2, h⟩ := rtRun_events ops RTConn.fresh op _ hmem
  exact rtStep_events s2 op p c h

/-- Witness for `state_machine_amended` on a one-operation trace. -/
theorem state_machine_amended_witness :
    ((ROp.opConnect "wss://gw" ConnectOutcome.ok,
        REvent.stateChange RState.disconnected RState.connecting)
      ∈ (rtRun RTConn.fresh [ROp.opConnect "wss://gw" ConnectOutcome.ok]).2) ∧
    codePermitted RState.disconnected RState.connecting :=
  ⟨by decide,
   (state_machine_amended [ROp.opConnect "wss://gw" ConnectOutcome.ok]
     (ROp.opConnect "wss://gw" ConnectOutcome.ok)
     RState.disconnected RState.connecting (by decide)).1⟩

/-! ## Hume EVI message routing (`BudRealtime._handle_hume_message`, C9)

Base64 audio payloads are carried verbatim (decoding is not modelled);
scores are exact rationals in dict insertion order. -/

/-- Unified events emitted by the realtime router. -/
inductive RTEvent
  | audioEv (dataB64 : String)
  | transcriptEv (text : String) (isFinal : Bool) (role : String)
  | emotionEv (emotions : List (String × ℚ)) (dominant : String) (confidence : ℚ)
  | functionCallEv (name : String) (callId : String)
  | errorEv (message : String)
deriving Repr, DecidableEq

/-- A decoded Hume EVI JSON message.  `prosodyScores = some scores` models
a present and truthy `models.prosody` dict whose `scores` map holds
`scores`; `none` models a missing, null or empty (falsy) prosody. -/
structure HumeMsg where
  msgType : String
  content : String
  dataField : String
  name : String
  toolCallId : String
  errorMessage : String
  prosodyScores : Option (List (String × ℚ))
deriving Repr, DecidableEq

/-- One step of the dominant-emotion loop: the running pair is replaced
only when the next score is strictly greater. -/
def humeScoreStep (acc p : String × ℚ) : String × ℚ :=
  if acc.2 < p.2 then p else acc

/-- The dominant-emotion loop: `dominant` starts `"neutral"` with
`max_score = 0.0`. -/
def dominantFold (scores : List (String × ℚ)) : String × ℚ :=
  scores.foldl humeScoreStep ("neutral", 0)

/-- `BudRealtime._handle_hume_message`. -/
def handleHumeMessage (m : HumeMsg) : List RTEvent :=
  if m.msgType = "audio" then [.audioEv m.dataField]
  else if m.msgType = "user_message" ∨ m.msgType = "assistant_message" then
    let role := if m.msgType = "user_message" then "user" else "assistant"
    let transcript := RTEvent.transcriptEv m.content true role
    match m.prosodyScores with
    | none => [transcript]
    | some scores =>
        let d := dominantFold scores
        [transcript, .emotionEv scores d.1 d.2]
  else if m.msgType = "tool_call" then [.functionCallEv m.name m.toolCallId]
  else if m.msgType = "error" then [.errorEv m.errorMessage]
  else []

/-- Whether an event is an `emotion` event. -/
def isEmotionEv : RTEvent → Bool
  | .emotionEv _ _ _ => true
  | _ => false

/-- C9 counterexample: for the non-empty score map `{"happy": 0.0}` the
emitted emotion event has `dominant = "neutral"` and `confidence = 0.0` —
the loop only replaces the initial `("neutral", 0.0)` on a strictly
greater score, so `dominant` is not the maximal-scoring key `"happy"`
(it is not a key of the map at all). -/
theorem hume_emotion_counterexample :
    ((handleHumeMessage
        ⟨"assistant_message", "hi", "", "", "", "", some [("happy", 0)]⟩).filter
          isEmotionEv
      = [RTEvent.emotionEv [("happy", 0)] "neutral" 0]) ∧
    ¬ ("neutral" = "happy") := by
  decide

lemma humeScoreStep_pos {acc p : String × ℚ} (h : acc.2 < p.2) :
    humeScoreStep acc p = p := by
  rw [humeScoreStep, if_pos h]

lemma humeScoreStep_neg {acc p : String × ℚ} (h : ¬ acc.2 < p.2) :
    humeScoreStep acc p = acc := by
  rw [humeScoreStep, if_neg h]

lemma dominantFold_aux_mem :
    ∀ (l : List (String × ℚ)) (acc : String × ℚ),
      l.foldl humeScoreStep acc ∈ acc :: l
  | [], _ => List.mem_singleton_self _
  | p :: rest, acc => by
      rw [List.foldl_cons]
      by_cases h : acc.2 < p.2
      · rw [humeScoreStep_pos h]
        exact List.mem_cons_of_mem acc (dominantFold_aux_mem rest p)
      · rw [humeScoreStep_neg h]
        rcases List.mem_cons.mp (dominantFold_aux_mem rest acc) with h2 | h2
        · rw [h2]
          exact List.mem_cons_self _ _
        · exact List.mem_cons_of_mem _ (List.mem_cons_of_mem _ h2)

lemma dominantFold_aux_ge :
    ∀ (l : List (String × ℚ)) (acc q : String × ℚ),
      q ∈ acc :: l → q.2 ≤ (l.foldl humeScoreStep acc).2
  | [], _, q, hq => by
      rw [List.mem_singleton.mp hq]
      exact le_refl _
  | p :: rest, acc, q, hq => by
      rw [List.foldl_cons]
      by_cases h : acc.2 < p.2
      · rw [humeScoreStep_pos h]
        rcases List.mem_cons.mp hq with rfl | hq2
        · exact le_trans (le_of_lt h)
            (dominantFold_aux_ge rest p p (List.mem_cons_self _ _))
        · exact dominantFold_aux_ge rest p q hq2
      · rw [humeScoreStep_neg h]
        rcases List.mem_cons.mp hq with rfl | hq2
        · exact dominantFold_aux_ge rest _ _ (List.mem_cons_self _ _)
        · rcases List.mem_cons.mp hq2 with rfl | hq3
          · exact le_trans (not_lt.mp h)
              (dominantFold_aux_ge rest acc acc (List.mem_cons_self _ _))
          · exact dominantFold_aux_ge rest acc q (List.mem_cons_of_mem _ hq3)

/-- C9 (amended): routing a Hume `user_message`/`assistant_message` whose
prosody score map is non-empty and contains some strictly positive score
emits exactly one `emotion` event whose `emotions` field is the score map,
whose `dominant` is a maximal-scoring key of the map, and whose
`confidence` is that maximal score.  (When no score is strictly positive
the loop's initial `("neutral", 0.0)` survives instead — see the
counterexample.)  On the spec's example `{"happy": 0.8, "sad": 0.1,
"neutral": 0.1}` the dominant is `"happy"` with confidence 0.8. -/
theorem hume_emotion_amended :
    (∀ (content dataField nm callId errMsg : String)
        (scores : List (String × ℚ)) (t : String),
      (t = "user_message" ∨ t = "assistant_message") →
      (∃ q ∈ scores, 0 < q.2) →
      ((handleHumeMessage
          ⟨t, content, dataField, nm, callId, errMsg, some scores⟩).filter
            isEmotionEv
        = [RTEvent.emotionEv scores (dominantFold scores).1
            (dominantFold scores).2] ∧
       dominantFold scores ∈ scores ∧
       ∀ q ∈ scores, q.2 ≤ (dominantFold scores).2)) ∧
    (handleHumeMessage ⟨"assistant_message", "", "", "", "", "",
        some [("happy", mkRat 4 5), ("sad", mkRat 1 10),
              ("neutral", mkRat 1 10)]⟩).filter isEmotionEv
      = [RTEvent.emotionEv
          [("happy", mkRat 4 5), ("sad", mkRat 1 10), ("neutral", mkRat 1 10)]
          "happy" (mkRat 4 5)] := by
  constructor
  · intro content dataField nm callId errMsg scores t ht hpos
    refine ⟨?_, ?_, ?_⟩
    · rcases ht with rfl | rfl <;>
        simp [handleHumeMessage, isEmotionEv]
    · obtain ⟨q, hqmem, hqpos⟩ := hpos
      rcases List.mem_cons.mp (dominantFold_aux_mem scores ("neutral", 0))
        with h | h
      · exfalso
        have hge := dominantFold_aux_ge scores ("neutral", 0) q
          (List.mem_cons_of_mem _ hqmem)
        rw [h] at hge
        exact absurd (lt_of_lt_of_le hqpos hge) (lt_irrefl 0)
      · exact h
    · intro q hq
      exact dominantFold_aux_ge scores ("neutral", 0) q
        (List.mem_cons_of_mem _ hq)
  · decide

/-- Witness for `hume_emotion_amended` on a one-entry score map. -/
theorem hume_emotion_amended_witness :
    (("assistant_message" = "user_message"
        ∨ "assistant_message" = "assistant_message") ∧
     ∃ q ∈ [("happy", (1:ℚ))], 0 < q.2) ∧
    dominantFold [("happy", (1:ℚ))] ∈ [("happy", (1:ℚ))] :=
  ⟨⟨Or.inr rfl, ⟨("happy", 1), List.mem_singleton_self _, by decide⟩⟩,
   (hume_emotion_amended.1 "" "" "" "" "" [("happy", 1)] "assistant_message"
     (Or.inr rfl)
     ⟨("happy", 1), List.mem_singleton_self _, by decide⟩).2.1⟩

end WaaV
